import Mathlib

/-!
Shallow embedding of the `gen_id_relations` crate: bipartite parent/child
relation stores over generational ids.

Ids: the crate's `Id<Arena>` is a generational reference, but every store here
requires the `Fixed` (non-reclaiming) allocator discipline, under which an id
is determined by its raw slot index; we model ids as `Nat`.

Backing store: `RawComponent` (external crate `gen_id_component`) is a sparse
map keyed by the raw slot, per the spec's backing-store contract
(`get(raw) -> optional value`, `insert(raw, value)`, indexed access).  We model
it as an association list with most-recent-insertion-wins lookup, which
realises exactly that contract.

Panics: Rust `panic!` unwinds; we model each mutating operation as returning
`StoreResult`, where `panicked s` carries the store state at the moment of the
panic (needed to state the non-atomicity of `insert_child`).
-/

/-- Raw-slot-keyed sparse map: the external `RawComponent` backing store. -/
abbrev RawComponent (α : Type) : Type := List (Nat × α)

/-- The empty backing store (`RawComponent::default`). -/
def RawComponent.empty {α : Type} : RawComponent α := []

/-- `RawComponent::get(raw) -> Option<&V>`. -/
def RawComponent.get {α : Type} : RawComponent α → Nat → Option α
  | [], _ => none
  | (j, v) :: rest, i => if j = i then some v else RawComponent.get rest i

/-- `RawComponent::insert(raw, value)`: overwrites any existing value at `raw`. -/
def RawComponent.insert {α : Type} (c : RawComponent α) (i : Nat) (v : α) :
    RawComponent α :=
  (i, v) :: c

/-- Result of a Rust method that may `panic!`: `panicked s` carries the store
state at the moment of the panic. -/
inductive StoreResult (σ : Type) where
  | ok (s : σ)
  | panicked (s : σ)
deriving DecidableEq

/-- `Relation<Arena>` from `lib.rs`: `ChildOf(Id)` or `ParentOf(Vec<Id>)`. -/
inductive Relation where
  | ChildOf (parent : Nat)
  | ParentOf (children : List Nat)
deriving DecidableEq

/-- `Relation::parent()`: an empty `ParentOf` value. -/
def Relation.parent : Relation := .ParentOf []

/-- Tag test used to state role permanence (is the value a `ParentOf`?). -/
def Relation.isParentTag : Relation → Bool
  | .ParentOf _ => true
  | .ChildOf _ => false

/-- `MonotypeBipartite<Arena>` from `lib.rs`. -/
structure MonotypeBipartite where
  values : RawComponent Relation
deriving DecidableEq

/-- `MonotypeBipartite::default()`: the empty store. -/
def MonotypeBipartite.empty : MonotypeBipartite := ⟨RawComponent.empty⟩

/-- `MonotypeBipartite::insert_if_empty`: insert when no entry exists, panic
otherwise (state unchanged at the panic). -/
def MonotypeBipartite.insert_if_empty (s : MonotypeBipartite) (i : Nat)
    (relation : Relation) : StoreResult MonotypeBipartite :=
  match s.values.get i with
  | none => .ok ⟨s.values.insert i relation⟩
  | some _ => .panicked s

/-- `MonotypeBipartite::insert_parent`. -/
def MonotypeBipartite.insert_parent (s : MonotypeBipartite) (i : Nat) :
    StoreResult MonotypeBipartite :=
  s.insert_if_empty i Relation.parent

/-- `MonotypeBipartite::insert_child(id, parent)`: pushes `id` onto the
parent's child vector first (panicking if `parent` has no entry or a
`ChildOf` entry), then does `insert_if_empty` on `id`. -/
def MonotypeBipartite.insert_child (s : MonotypeBipartite) (i parent : Nat) :
    StoreResult MonotypeBipartite :=
  match s.values.get parent with
  | some (.ParentOf children) =>
      MonotypeBipartite.insert_if_empty
        ⟨s.values.insert parent (.ParentOf (children ++ [i]))⟩ i
        (.ChildOf parent)
  | some (.ChildOf _) => .panicked s
  | none => .panicked s

/-- `Index for MonotypeBipartite`: `none` models the panic on a missing
entry. -/
def MonotypeBipartite.index (s : MonotypeBipartite) (i : Nat) :
    Option Relation :=
  s.values.get i

/-- A call against a store: the two mutating operations of the protocol. -/
inductive Op where
  | insertParent (p : Nat)
  | insertChild (c p : Nat)
deriving DecidableEq

/-- Apply one call to a `MonotypeBipartite` store. -/
def MonotypeBipartite.applyOp (s : MonotypeBipartite) :
    Op → StoreResult MonotypeBipartite
  | .insertParent p => s.insert_parent p
  | .insertChild c p => s.insert_child c p

/-- Run a sequence of calls, requiring every call to succeed (`none` when some
call panics). -/
def MonotypeBipartite.runOps (s : MonotypeBipartite) :
    List Op → Option MonotypeBipartite
  | [] => some s
  | op :: rest =>
      match s.applyOp op with
      | .ok s1 => s1.runOps rest
      | .panicked _ => none

/-- The depth-one-forest invariant on a `MonotypeBipartite` store: every
`ChildOf p` entry points at a `ParentOf` entry, and every id in a `ParentOf`
collection holds the matching `ChildOf` entry. -/
def MonotypeBipartite.Inv (s : MonotypeBipartite) : Prop :=
  (∀ c p, s.values.get c = some (.ChildOf p) →
    ∃ ch, s.values.get p = some (.ParentOf ch)) ∧
  (∀ p ch, s.values.get p = some (.ParentOf ch) →
    ∀ c ∈ ch, s.values.get c = some (.ChildOf p))

/-- `VecRelation<E>` from `vec.rs`. -/
inductive VecRelation where
  | ChildOf (parent : Nat)
  | ParentOf (children : List Nat)
deriving DecidableEq

/-- `VecRelation::parent()`. -/
def VecRelation.parent : VecRelation := .ParentOf []

/-- `VecRelation::parent_of`. -/
def VecRelation.parent_of : VecRelation → Option (List Nat)
  | .ParentOf c => some c
  | .ChildOf _ => none

/-- `VecRelation::child_of`. -/
def VecRelation.child_of : VecRelation → Option Nat
  | .ChildOf p => some p
  | .ParentOf _ => none

/-- `VecRelation::is_parent`. -/
def VecRelation.is_parent : VecRelation → Bool
  | .ParentOf _ => true
  | .ChildOf _ => false

/-- `VecRelation::is_child`, defined in the source as `!self.is_parent()`. -/
def VecRelation.is_child (r : VecRelation) : Bool :=
  !r.is_parent

/-- `VecRelations<E>` from `vec.rs`. -/
structure VecRelations where
  values : RawComponent VecRelation
deriving DecidableEq

/-- `VecRelations::default()`. -/
def VecRelations.empty : VecRelations := ⟨RawComponent.empty⟩

/-- `VecRelations::insert_if_empty`. -/
def VecRelations.insert_if_empty (s : VecRelations) (i : Nat)
    (relation : VecRelation) : StoreResult VecRelations :=
  match s.values.get i with
  | none => .ok ⟨s.values.insert i relation⟩
  | some _ => .panicked s

/-- `VecRelations::insert_parent`. -/
def VecRelations.insert_parent (s : VecRelations) (i : Nat) :
    StoreResult VecRelations :=
  s.insert_if_empty i VecRelation.parent

/-- `VecRelations::insert_child(id, parent)`. -/
def VecRelations.insert_child (s : VecRelations) (i parent : Nat) :
    StoreResult VecRelations :=
  match s.values.get parent with
  | some (.ParentOf children) =>
      VecRelations.insert_if_empty
        ⟨s.values.insert parent (.ParentOf (children ++ [i]))⟩ i
        (.ChildOf parent)
  | some (.ChildOf _) => .panicked s
  | none => .panicked s

/-- `Index for VecRelations`: `none` models the panic on a missing entry. -/
def VecRelations.index (s : VecRelations) (i : Nat) : Option VecRelation :=
  s.values.get i

/-- Modelled from the spec: `IdRange<E>` (crate `gen_id`, not under `src/`) is
a single contiguous interval over raw slots, held as a half-open range
`[start, stop)`; `IdRange::default()` is the empty range `[0, 0)`. -/
structure IdRange where
  start : Nat
  stop : Nat
deriving DecidableEq

/-- `IdRange::default()`. -/
def IdRange.default : IdRange := ⟨0, 0⟩

/-- Number of ids in the interval. -/
def IdRange.len (r : IdRange) : Nat := r.stop - r.start

/-- Is the interval empty? -/
def IdRange.isEmpty (r : IdRange) : Bool := r.stop ≤ r.start

/-- Membership in the half-open interval. -/
def IdRange.contains (r : IdRange) (i : Nat) : Bool :=
  r.start ≤ i && i < r.stop

/-- Modelled from the spec: `IdRange::append(id)` grows the interval by one
only when `id` is exactly the next slot after the current interval's end
(an empty range starts a fresh one-element interval at `id`); any other `id`
is an invariant failure (`none` models the panic). -/
def IdRange.append (r : IdRange) (i : Nat) : Option IdRange :=
  if r.isEmpty then some ⟨i, i + 1⟩
  else if i = r.stop then some ⟨r.start, r.stop + 1⟩
  else none

/-- `RangeRelation<E>` from `range.rs`. -/
inductive RangeRelation where
  | ChildOf (parent : Nat)
  | ParentOf (children : IdRange)
deriving DecidableEq

/-- `RangeRelation::parent()`. -/
def RangeRelation.parent : RangeRelation := .ParentOf IdRange.default

/-- `RangeRelation::parent_of`. -/
def RangeRelation.parent_of : RangeRelation → Option IdRange
  | .ParentOf c => some c
  | .ChildOf _ => none

/-- `RangeRelation::child_of`. -/
def RangeRelation.child_of : RangeRelation → Option Nat
  | .ChildOf p => some p
  | .ParentOf _ => none

/-- `RangeRelation::is_parent`. -/
def RangeRelation.is_parent : RangeRelation → Bool
  | .ParentOf _ => true
  | .ChildOf _ => false

/-- `RangeRelation::is_child`, defined in the source as `!self.is_parent()`. -/
def RangeRelation.is_child (r : RangeRelation) : Bool :=
  !r.is_parent

/-- `RangeRelations<E>` from `range.rs`. -/
structure RangeRelations where
  values : RawComponent RangeRelation
deriving DecidableEq

/-- `RangeRelations::default()`. -/
def RangeRelations.empty : RangeRelations := ⟨RawComponent.empty⟩

/-- `RangeRelations::insert_if_empty`. -/
def RangeRelations.insert_if_empty (s : RangeRelations) (i : Nat)
    (relation : RangeRelation) : StoreResult RangeRelations :=
  match s.values.get i with
  | none => .ok ⟨s.values.insert i relation⟩
  | some _ => .panicked s

/-- `RangeRelations::insert_parent`. -/
def RangeRelations.insert_parent (s : RangeRelations) (i : Nat) :
    StoreResult RangeRelations :=
  s.insert_if_empty i RangeRelation.parent

/-- `RangeRelations::insert_child(id, parent)`: appends `id` to the parent's
range first (panicking if `parent` has no entry or a `ChildOf` entry, or if
the append is non-contiguous), then does `insert_if_empty` on `id`. -/
def RangeRelations.insert_child (s : RangeRelations) (i parent : Nat) :
    StoreResult RangeRelations :=
  match s.values.get parent with
  | some (.ParentOf children) =>
      match children.append i with
      | some children1 =>
          RangeRelations.insert_if_empty
            ⟨s.values.insert parent (.ParentOf children1)⟩ i
            (.ChildOf parent)
      | none => .panicked s
  | some (.ChildOf _) => .panicked s
  | none => .panicked s

/-- `Index for RangeRelations`: `none` models the panic on a missing entry. -/
def RangeRelations.index (s : RangeRelations) (i : Nat) :
    Option RangeRelation :=
  s.values.get i

/-- `RangeRelations::parents(iter)`: filters the input ids to those whose
entry matches `ParentOf(_)`; the indexed lookup inside the filter panics on an
id with no entry, modelled by `none` for the whole traversal. -/
def RangeRelations.parents (s : RangeRelations) : List Nat → Option (List Nat)
  | [] => some []
  | i :: rest =>
      match s.values.get i with
      | none => none
      | some r =>
          Option.map
            (fun tl =>
              match r with
              | .ParentOf _ => i :: tl
              | .ChildOf _ => tl)
            (RangeRelations.parents s rest)

/-- Apply one call to a `RangeRelations` store. -/
def RangeRelations.applyOp (s : RangeRelations) :
    Op → StoreResult RangeRelations
  | .insertParent p => s.insert_parent p
  | .insertChild c p => s.insert_child c p

/-- Run a sequence of calls on a `RangeRelations` store, requiring every call
to succeed. -/
def RangeRelations.runOps (s : RangeRelations) :
    List Op → Option RangeRelations
  | [] => some s
  | op :: rest =>
      match s.applyOp op with
      | .ok s1 => s1.runOps rest
      | .panicked _ => none

/-- The depth-one-forest invariant on a `RangeRelations` store. -/
def RangeRelations.Inv (s : RangeRelations) : Prop :=
  (∀ c p, s.values.get c = some (.ChildOf p) →
    ∃ ch, s.values.get p = some (.ParentOf ch)) ∧
  (∀ p ch, s.values.get p = some (.ParentOf ch) →
    ∀ c, ch.contains c = true → s.values.get c = some (.ChildOf p))

/-- Tag test for `RangeRelation`, used to state role permanence. -/
def RangeRelation.isParentTag : RangeRelation → Bool
  | .ParentOf _ => true
  | .ChildOf _ => false

/-- Apply one call to a `VecRelations` store. -/
def VecRelations.applyOp (s : VecRelations) :
    Op → StoreResult VecRelations
  | .insertParent p => s.insert_parent p
  | .insertChild c p => s.insert_child c p

/-- Run a sequence of calls on a `VecRelations` store, requiring every call
to succeed. -/
def VecRelations.runOps (s : VecRelations) :
    List Op → Option VecRelations
  | [] => some s
  | op :: rest =>
      match s.applyOp op with
      | .ok s1 => s1.runOps rest
      | .panicked _ => none

/-- Does the entry currently stored for `i` match `ParentOf(_)`? (the filter
predicate of `RangeRelations::parents`). -/
def RangeRelations.isParentAt (s : RangeRelations) (i : Nat) : Bool :=
  match s.values.get i with
  | some (.ParentOf _) => true
  | _ => false

/-- Does `op` insert an entry for id `i`? -/
def Op.targets : Op → Nat → Prop
  | .insertParent p, i => i = p
  | .insertChild c _, i => i = c

/-- Lookup after insert: most-recent-insertion-wins. -/
theorem RawComponent.get_insert {α : Type} (c : RawComponent α) (i : Nat)
    (v : α) (j : Nat) :
    (c.insert i v).get j = if i = j then some v else c.get j := rfl

theorem RawComponent.get_insert_self {α : Type} (c : RawComponent α) (i : Nat)
    (v : α) : (c.insert i v).get i = some v := by
  simp [RawComponent.get_insert]

theorem RawComponent.get_insert_ne {α : Type} (c : RawComponent α) (i : Nat)
    (v : α) (j : Nat) (h : i ≠ j) : (c.insert i v).get j = c.get j := by
  simp [RawComponent.get_insert, h]

theorem RawComponent.get_empty {α : Type} (i : Nat) :
    (RawComponent.empty (α := α)).get i = none := rfl

/-- Inversion of a successful `MonotypeBipartite.insert_if_empty`. -/
theorem MonotypeBipartite.insert_if_empty_ok {s t : MonotypeBipartite}
    {i : Nat} {r : Relation} (h : s.insert_if_empty i r = .ok t) :
    s.values.get i = none ∧ t = ⟨s.values.insert i r⟩ := by
  unfold MonotypeBipartite.insert_if_empty at h
  split at h
  · exact ⟨by assumption, by cases h; rfl⟩
  · cases h

/-- Inversion of a successful `MonotypeBipartite.insert_parent`. -/
theorem MonotypeBipartite.insert_parent_ok {s t : MonotypeBipartite} {p : Nat}
    (h : s.insert_parent p = .ok t) :
    s.values.get p = none ∧ t = ⟨s.values.insert p (.ParentOf [])⟩ :=
  MonotypeBipartite.insert_if_empty_ok h

/-- Inversion of a successful `MonotypeBipartite.insert_child`. -/
theorem MonotypeBipartite.insert_child_ok {s t : MonotypeBipartite} {c p : Nat}
    (h : s.insert_child c p = .ok t) :
    ∃ ch, s.values.get p = some (.ParentOf ch) ∧ s.values.get c = none ∧
      c ≠ p ∧
      t = ⟨(s.values.insert p (.ParentOf (ch ++ [c]))).insert c (.ChildOf p)⟩ := by
  unfold MonotypeBipartite.insert_child at h
  split at h
  case _ ch hg =>
    obtain ⟨hc, ht⟩ := MonotypeBipartite.insert_if_empty_ok h
    have hcp : c ≠ p := by
      intro e
      subst e
      rw [RawComponent.get_insert_self] at hc
      cases hc
    rw [RawComponent.get_insert_ne _ _ _ _ (Ne.symm hcp)] at hc
    exact ⟨ch, hg, hc, hcp, ht⟩
  case _ => cases h
  case _ => cases h

/-- Inversion of a successful `VecRelations.insert_if_empty`. -/
theorem VecRelations.vec_insert_if_empty_ok {s t : VecRelations}
    {i : Nat} {r : VecRelation} (h : s.insert_if_empty i r = .ok t) :
    s.values.get i = none ∧ t = ⟨s.values.insert i r⟩ := by
  unfold VecRelations.insert_if_empty at h
  split at h
  · exact ⟨by assumption, by cases h; rfl⟩
  · cases h

/-- Inversion of a successful `VecRelations.insert_parent`. -/
theorem VecRelations.vec_insert_parent_ok {s t : VecRelations} {p : Nat}
    (h : s.insert_parent p = .ok t) :
    s.values.get p = none ∧ t = ⟨s.values.insert p (.ParentOf [])⟩ :=
  VecRelations.vec_insert_if_empty_ok h

/-- Inversion of a successful `VecRelations.insert_child`. -/
theorem VecRelations.vec_insert_child_ok {s t : VecRelations} {c p : Nat}
    (h : s.insert_child c p = .ok t) :
    ∃ ch, s.values.get p = some (.ParentOf ch) ∧ s.values.get c = none ∧
      c ≠ p ∧
      t = ⟨(s.values.insert p (.ParentOf (ch ++ [c]))).insert c (.ChildOf p)⟩ := by
  unfold VecRelations.insert_child at h
  split at h
  case _ ch hg =>
    obtain ⟨hc, ht⟩ := VecRelations.vec_insert_if_empty_ok h
    have hcp : c ≠ p := by
      intro e
      subst e
      rw [RawComponent.get_insert_self] at hc
      cases hc
    rw [RawComponent.get_insert_ne _ _ _ _ (Ne.symm hcp)] at hc
    exact ⟨ch, hg, hc, hcp, ht⟩
  case _ => cases h
  case _ => cases h

/-- Inversion of a successful `RangeRelations.insert_if_empty`. -/
theorem RangeRelations.range_insert_if_empty_ok {s t : RangeRelations}
    {i : Nat} {r : RangeRelation} (h : s.insert_if_empty i r = .ok t) :
    s.values.get i = none ∧ t = ⟨s.values.insert i r⟩ := by
  unfold RangeRelations.insert_if_empty at h
  split at h
  · exact ⟨by assumption, by cases h; rfl⟩
  · cases h

/-- Inversion of a successful `RangeRelations.insert_parent`. -/
theorem RangeRelations.range_insert_parent_ok {s t : RangeRelations} {p : Nat}
    (h : s.insert_parent p = .ok t) :
    s.values.get p = none ∧
      t = ⟨s.values.insert p (.ParentOf IdRange.default)⟩ :=
  RangeRelations.range_insert_if_empty_ok h

/-- Inversion of a successful `RangeRelations.insert_child`. -/
theorem RangeRelations.range_insert_child_ok {s t : RangeRelations} {c p : Nat}
    (h : s.insert_child c p = .ok t) :
    ∃ r r1, s.values.get p = some (.ParentOf r) ∧ r.append c = some r1 ∧
      s.values.get c = none ∧ c ≠ p ∧
      t = ⟨(s.values.insert p (.ParentOf r1)).insert c (.ChildOf p)⟩ := by
  unfold RangeRelations.insert_child at h
  split at h
  case _ r hg =>
    split at h
    case _ r1 ha =>
      obtain ⟨hc, ht⟩ := RangeRelations.range_insert_if_empty_ok h
      have hcp : c ≠ p := by
        intro e
        subst e
        rw [RawComponent.get_insert_self] at hc
        cases hc
      rw [RawComponent.get_insert_ne _ _ _ _ (Ne.symm hcp)] at hc
      exact ⟨r, r1, hg, ha, hc, hcp, ht⟩
    case _ => cases h
  case _ => cases h
  case _ => cases h

/-- Membership after a successful `IdRange.append`: exactly the old members
plus the appended id. -/
theorem IdRange.contains_append {r r1 : IdRange} {c x : Nat}
    (h : r.append c = some r1) :
    (r1.contains x = true ↔ (r.contains x = true ∨ x = c)) := by
  unfold IdRange.append at h
  split at h
  case _ he =>
    cases h
    simp only [IdRange.isEmpty, decide_eq_true_eq] at he
    simp only [IdRange.contains, Bool.and_eq_true, decide_eq_true_eq]
    omega
  case _ he =>
    split at h
    case _ hc =>
      cases h
      simp only [IdRange.isEmpty, decide_eq_true_eq] at he
      simp only [IdRange.contains, Bool.and_eq_true, decide_eq_true_eq]
      omega
    case _ => cases h

/-- A fresh `insert_parent` succeeds and stores an empty `ParentOf`. -/
theorem MonotypeBipartite.insert_parent_fresh (s : MonotypeBipartite) (p : Nat)
    (hp : s.values.get p = none) :
    s.insert_parent p = .ok ⟨s.values.insert p (.ParentOf [])⟩ := by
  simp [MonotypeBipartite.insert_parent, MonotypeBipartite.insert_if_empty, hp,
    Relation.parent]

/-- A fresh `insert_child` under an existing parent succeeds, appending the
child and storing its `ChildOf` entry. -/
theorem MonotypeBipartite.insert_child_fresh (s : MonotypeBipartite)
    (c p : Nat) (ch : List Nat) (hp : s.values.get p = some (.ParentOf ch))
    (hc : s.values.get c = none) (hne : c ≠ p) :
    s.insert_child c p =
      .ok ⟨(s.values.insert p (.ParentOf (ch ++ [c]))).insert c (.ChildOf p)⟩ := by
  simp only [MonotypeBipartite.insert_child, hp,
    MonotypeBipartite.insert_if_empty,
    RawComponent.get_insert_ne _ _ _ _ (Ne.symm hne), hc]

/-- Second `insert_parent` on an entried id panics with the store unchanged. -/
theorem MonotypeBipartite.insert_parent_occupied (s : MonotypeBipartite)
    (p : Nat) (hp : (s.values.get p).isSome = true) :
    s.insert_parent p = .panicked s := by
  unfold MonotypeBipartite.insert_parent MonotypeBipartite.insert_if_empty
  cases hg : s.values.get p with
  | none => rw [hg] at hp; cases hp
  | some v => rfl

/-- `insert_child` under an id with no entry panics with the store
unchanged. -/
theorem MonotypeBipartite.insert_child_no_entry (s : MonotypeBipartite)
    (c p : Nat) (hp : s.values.get p = none) :
    s.insert_child c p = .panicked s := by
  unfold MonotypeBipartite.insert_child
  rw [hp]

/-- `insert_child` under an id holding a `ChildOf` entry panics with the store
unchanged. -/
theorem MonotypeBipartite.insert_child_under_child (s : MonotypeBipartite)
    (c p q : Nat) (hp : s.values.get p = some (.ChildOf q)) :
    s.insert_child c p = .panicked s := by
  unfold MonotypeBipartite.insert_child
  rw [hp]

/-- Duplicate-child violation path: the parent's vector is already mutated at
the moment of the panic, the child's own entry is not. -/
theorem MonotypeBipartite.insert_child_duplicate (s : MonotypeBipartite)
    (c p : Nat) (ch : List Nat) (e : Relation)
    (hp : s.values.get p = some (.ParentOf ch))
    (hc : s.values.get c = some e) (hne : c ≠ p) :
    ∃ t, s.insert_child c p = .panicked t ∧
      t.values.get p = some (.ParentOf (ch ++ [c])) ∧
      t.values.get c = some e := by
  refine ⟨⟨s.values.insert p (.ParentOf (ch ++ [c]))⟩, ?_, ?_, ?_⟩
  · simp only [MonotypeBipartite.insert_child, hp,
      MonotypeBipartite.insert_if_empty,
      RawComponent.get_insert_ne _ _ _ _ (Ne.symm hne), hc]
  · exact RawComponent.get_insert_self _ _ _
  · rw [RawComponent.get_insert_ne _ _ _ _ (Ne.symm hne)]
    exact hc

/-- `insert_child` with an already-entried child id always panics. -/
theorem MonotypeBipartite.insert_child_occupied (s : MonotypeBipartite)
    (c p : Nat) (hc : (s.values.get c).isSome = true) :
    ∃ t, s.insert_child c p = .panicked t := by
  cases hg : s.values.get p with
  | none => exact ⟨s, MonotypeBipartite.insert_child_no_entry s c p hg⟩
  | some v =>
    cases v with
    | ChildOf q =>
      exact ⟨s, MonotypeBipartite.insert_child_under_child s c p q hg⟩
    | ParentOf ch =>
      obtain ⟨e, hcv⟩ := Option.isSome_iff_exists.mp hc
      by_cases hne : c = p
      · subst hne
        refine ⟨⟨s.values.insert c (.ParentOf (ch ++ [c]))⟩, ?_⟩
        simp only [MonotypeBipartite.insert_child, hg,
          MonotypeBipartite.insert_if_empty, RawComponent.get_insert_self]
      · obtain ⟨t, ht, h1, h2⟩ :=
          MonotypeBipartite.insert_child_duplicate s c p ch e hg hcv hne
        exact ⟨t, ht⟩

/-- A fresh `insert_parent` succeeds and stores an empty `ParentOf`. -/
theorem VecRelations.vec_insert_parent_fresh (s : VecRelations) (p : Nat)
    (hp : s.values.get p = none) :
    s.insert_parent p = .ok ⟨s.values.insert p (.ParentOf [])⟩ := by
  simp [VecRelations.insert_parent, VecRelations.insert_if_empty, hp,
    VecRelation.parent]

/-- A fresh `insert_child` under an existing parent succeeds. -/
theorem VecRelations.vec_insert_child_fresh (s : VecRelations)
    (c p : Nat) (ch : List Nat) (hp : s.values.get p = some (.ParentOf ch))
    (hc : s.values.get c = none) (hne : c ≠ p) :
    s.insert_child c p =
      .ok ⟨(s.values.insert p (.ParentOf (ch ++ [c]))).insert c (.ChildOf p)⟩ := by
  simp only [VecRelations.insert_child, hp, VecRelations.insert_if_empty,
    RawComponent.get_insert_ne _ _ _ _ (Ne.symm hne), hc]

/-- Second `insert_parent` on an entried id panics with the store unchanged. -/
theorem VecRelations.vec_insert_parent_occupied (s : VecRelations)
    (p : Nat) (hp : (s.values.get p).isSome = true) :
    s.insert_parent p = .panicked s := by
  unfold VecRelations.insert_parent VecRelations.insert_if_empty
  cases hg : s.values.get p with
  | none => rw [hg] at hp; cases hp
  | some v => rfl

/-- `insert_child` under an id with no entry panics with the store
unchanged. -/
theorem VecRelations.vec_insert_child_no_entry (s : VecRelations)
    (c p : Nat) (hp : s.values.get p = none) :
    s.insert_child c p = .panicked s := by
  unfold VecRelations.insert_child
  rw [hp]

/-- `insert_child` under an id holding a `ChildOf` entry panics with the store
unchanged. -/
theorem VecRelations.vec_insert_child_under_child (s : VecRelations)
    (c p q : Nat) (hp : s.values.get p = some (.ChildOf q)) :
    s.insert_child c p = .panicked s := by
  unfold VecRelations.insert_child
  rw [hp]

/-- Duplicate-child violation path on the `Vec` backend: the parent's vector
is already mutated at the panic, the child's entry is not. -/
theorem VecRelations.vec_insert_child_duplicate (s : VecRelations)
    (c p : Nat) (ch : List Nat) (e : VecRelation)
    (hp : s.values.get p = some (.ParentOf ch))
    (hc : s.values.get c = some e) (hne : c ≠ p) :
    ∃ t, s.insert_child c p = .panicked t ∧
      t.values.get p = some (.ParentOf (ch ++ [c])) ∧
      t.values.get c = some e := by
  refine ⟨⟨s.values.insert p (.ParentOf (ch ++ [c]))⟩, ?_, ?_, ?_⟩
  · simp only [VecRelations.insert_child, hp, VecRelations.insert_if_empty,
      RawComponent.get_insert_ne _ _ _ _ (Ne.symm hne), hc]
  · exact RawComponent.get_insert_self _ _ _
  · rw [RawComponent.get_insert_ne _ _ _ _ (Ne.symm hne)]
    exact hc

/-- `insert_child` with an already-entried child id always panics. -/
theorem VecRelations.vec_insert_child_occupied (s : VecRelations)
    (c p : Nat) (hc : (s.values.get c).isSome = true) :
    ∃ t, s.insert_child c p = .panicked t := by
  cases hg : s.values.get p with
  | none => exact ⟨s, VecRelations.vec_insert_child_no_entry s c p hg⟩
  | some v =>
    cases v with
    | ChildOf q => exact ⟨s, VecRelations.vec_insert_child_under_child s c p q hg⟩
    | ParentOf ch =>
      obtain ⟨e, hcv⟩ := Option.isSome_iff_exists.mp hc
      by_cases hne : c = p
      · subst hne
        refine ⟨⟨s.values.insert c (.ParentOf (ch ++ [c]))⟩, ?_⟩
        simp only [VecRelations.insert_child, hg,
          VecRelations.insert_if_empty, RawComponent.get_insert_self]
      · obtain ⟨t, ht, h1, h2⟩ :=
          VecRelations.vec_insert_child_duplicate s c p ch e hg hcv hne
        exact ⟨t, ht⟩

/-- A fresh `insert_parent` succeeds and stores an empty `ParentOf` range. -/
theorem RangeRelations.range_insert_parent_fresh (s : RangeRelations) (p : Nat)
    (hp : s.values.get p = none) :
    s.insert_parent p = .ok ⟨s.values.insert p (.ParentOf IdRange.default)⟩ := by
  simp [RangeRelations.insert_parent, RangeRelations.insert_if_empty, hp,
    RangeRelation.parent]

/-- A fresh, contiguous `insert_child` under an existing parent succeeds. -/
theorem RangeRelations.range_insert_child_fresh (s : RangeRelations)
    (c p : Nat) (r r1 : IdRange) (hp : s.values.get p = some (.ParentOf r))
    (ha : r.append c = some r1)
    (hc : s.values.get c = none) (hne : c ≠ p) :
    s.insert_child c p =
      .ok ⟨(s.values.insert p (.ParentOf r1)).insert c (.ChildOf p)⟩ := by
  simp only [RangeRelations.insert_child, hp, ha,
    RangeRelations.insert_if_empty,
    RawComponent.get_insert_ne _ _ _ _ (Ne.symm hne), hc]

/-- Second `insert_parent` on an entried id panics with the store unchanged. -/
theorem RangeRelations.range_insert_parent_occupied (s : RangeRelations)
    (p : Nat) (hp : (s.values.get p).isSome = true) :
    s.insert_parent p = .panicked s := by
  unfold RangeRelations.insert_parent RangeRelations.insert_if_empty
  cases hg : s.values.get p with
  | none => rw [hg] at hp; cases hp
  | some v => rfl

/-- `insert_child` under an id with no entry panics with the store
unchanged. -/
theorem RangeRelations.range_insert_child_no_entry (s : RangeRelations)
    (c p : Nat) (hp : s.values.get p = none) :
    s.insert_child c p = .panicked s := by
  unfold RangeRelations.insert_child
  rw [hp]

/-- `insert_child` under an id holding a `ChildOf` entry panics with the store
unchanged. -/
theorem RangeRelations.range_insert_child_under_child (s : RangeRelations)
    (c p q : Nat) (hp : s.values.get p = some (.ChildOf q)) :
    s.insert_child c p = .panicked s := by
  unfold RangeRelations.insert_child
  rw [hp]

/-- `insert_child` whose contiguity check fails panics with the store
unchanged. -/
theorem RangeRelations.insert_child_gap (s : RangeRelations)
    (c p : Nat) (r : IdRange) (hp : s.values.get p = some (.ParentOf r))
    (ha : r.append c = none) :
    s.insert_child c p = .panicked s := by
  simp only [RangeRelations.insert_child, hp, ha]

/-- Duplicate-child violation path on the `Range` backend: the parent's range
is already mutated at the panic, the child's entry is not. -/
theorem RangeRelations.range_insert_child_duplicate (s : RangeRelations)
    (c p : Nat) (r r1 : IdRange) (e : RangeRelation)
    (hp : s.values.get p = some (.ParentOf r))
    (ha : r.append c = some r1)
    (hc : s.values.get c = some e) (hne : c ≠ p) :
    ∃ t, s.insert_child c p = .panicked t ∧
      t.values.get p = some (.ParentOf r1) ∧
      t.values.get c = some e := by
  refine ⟨⟨s.values.insert p (.ParentOf r1)⟩, ?_, ?_, ?_⟩
  · simp only [RangeRelations.insert_child, hp, ha,
      RangeRelations.insert_if_empty,
      RawComponent.get_insert_ne _ _ _ _ (Ne.symm hne), hc]
  · exact RawComponent.get_insert_self _ _ _
  · rw [RawComponent.get_insert_ne _ _ _ _ (Ne.symm hne)]
    exact hc

/-- `insert_child` with an already-entried child id always panics. -/
theorem RangeRelations.range_insert_child_occupied (s : RangeRelations)
    (c p : Nat) (hc : (s.values.get c).isSome = true) :
    ∃ t, s.insert_child c p = .panicked t := by
  cases hg : s.values.get p with
  | none => exact ⟨s, RangeRelations.range_insert_child_no_entry s c p hg⟩
  | some v =>
    cases v with
    | ChildOf q => exact ⟨s, RangeRelations.range_insert_child_under_child s c p q hg⟩
    | ParentOf r =>
      cases ha : r.append c with
      | none => exact ⟨s, RangeRelations.insert_child_gap s c p r hg ha⟩
      | some r1 =>
        obtain ⟨e, hcv⟩ := Option.isSome_iff_exists.mp hc
        by_cases hne : c = p
        · subst hne
          refine ⟨⟨s.values.insert c (.ParentOf r1)⟩, ?_⟩
          simp only [RangeRelations.insert_child, hg, ha,
            RangeRelations.insert_if_empty, RawComponent.get_insert_self]
        · obtain ⟨t, ht, h1, h2⟩ :=
            RangeRelations.range_insert_child_duplicate s c p r r1 e hg ha hcv hne
          exact ⟨t, ht⟩

/-- One successful call never removes an entry and never changes its role. -/
theorem MonotypeBipartite.applyOp_mono {s t : MonotypeBipartite} {op : Op}
    (h : s.applyOp op = .ok t) (i : Nat) (r : Relation)
    (hg : s.values.get i = some r) :
    ∃ r2, t.values.get i = some r2 ∧ r.isParentTag = r2.isParentTag := by
  cases op with
  | insertParent p =>
    obtain ⟨hp, ht⟩ := MonotypeBipartite.insert_parent_ok h
    subst ht
    have hip : p ≠ i := by intro e; subst e; rw [hp] at hg; cases hg
    exact ⟨r, by rw [RawComponent.get_insert_ne _ _ _ _ hip]; exact hg, rfl⟩
  | insertChild c p =>
    obtain ⟨ch, hp, hc, hcp, ht⟩ := MonotypeBipartite.insert_child_ok h
    subst ht
    have hci : c ≠ i := by intro e; subst e; rw [hc] at hg; cases hg
    by_cases hpi : p = i
    · subst hpi
      rw [hp] at hg
      cases hg
      refine ⟨.ParentOf (ch ++ [c]), ?_, rfl⟩
      rw [RawComponent.get_insert_ne _ _ _ _ hci, RawComponent.get_insert_self]
    · exact ⟨r, by rw [RawComponent.get_insert_ne _ _ _ _ hci,
        RawComponent.get_insert_ne _ _ _ _ hpi]; exact hg, rfl⟩

/-- One successful call preserves the depth-one-forest invariant. -/
theorem MonotypeBipartite.applyOp_inv {s t : MonotypeBipartite} {op : Op}
    (hInv : s.Inv) (h : s.applyOp op = .ok t) : t.Inv := by
  obtain ⟨h1, h2⟩ := hInv
  cases op with
  | insertParent p =>
    obtain ⟨hp, ht⟩ := MonotypeBipartite.insert_parent_ok h
    subst ht
    constructor
    · intro x q hx
      by_cases e : p = x
      · subst e
        rw [RawComponent.get_insert_self] at hx
        cases hx
      · rw [RawComponent.get_insert_ne _ _ _ _ e] at hx
        obtain ⟨ch, hq⟩ := h1 x q hx
        have hpq : p ≠ q := by intro e2; subst e2; rw [hp] at hq; cases hq
        exact ⟨ch, by rw [RawComponent.get_insert_ne _ _ _ _ hpq]; exact hq⟩
    · intro q ch hq x hx
      by_cases e : p = q
      · subst e
        rw [RawComponent.get_insert_self] at hq
        cases hq
        cases hx
      · rw [RawComponent.get_insert_ne _ _ _ _ e] at hq
        have hxs := h2 q ch hq x hx
        have hpx : p ≠ x := by intro e2; subst e2; rw [hp] at hxs; cases hxs
        rw [RawComponent.get_insert_ne _ _ _ _ hpx]
        exact hxs
  | insertChild c p =>
    obtain ⟨ch, hp, hc, hcp, ht⟩ := MonotypeBipartite.insert_child_ok h
    subst ht
    constructor
    · intro x q hx
      by_cases ecx : c = x
      · subst ecx
        rw [RawComponent.get_insert_self] at hx
        cases hx
        refine ⟨ch ++ [c], ?_⟩
        rw [RawComponent.get_insert_ne _ _ _ _ hcp, RawComponent.get_insert_self]
      · rw [RawComponent.get_insert_ne _ _ _ _ ecx] at hx
        by_cases epx : p = x
        · subst epx
          rw [RawComponent.get_insert_self] at hx
          cases hx
        · rw [RawComponent.get_insert_ne _ _ _ _ epx] at hx
          obtain ⟨d, hq⟩ := h1 x q hx
          by_cases epq : p = q
          · subst epq
            refine ⟨ch ++ [c], ?_⟩
            rw [RawComponent.get_insert_ne _ _ _ _ hcp,
              RawComponent.get_insert_self]
          · have hcq : c ≠ q := by intro e2; subst e2; rw [hc] at hq; cases hq
            refine ⟨d, ?_⟩
            rw [RawComponent.get_insert_ne _ _ _ _ hcq,
              RawComponent.get_insert_ne _ _ _ _ epq]
            exact hq
    · intro q d hq x hx
      by_cases ecq : c = q
      · subst ecq
        rw [RawComponent.get_insert_self] at hq
        cases hq
      · rw [RawComponent.get_insert_ne _ _ _ _ ecq] at hq
        by_cases epq : p = q
        · subst epq
          rw [RawComponent.get_insert_self] at hq
          cases hq
          rcases List.mem_append.mp hx with hxch | hxc
          · have hxs := h2 p ch hp x hxch
            have hcx : c ≠ x := by intro e2; subst e2; rw [hc] at hxs; cases hxs
            have hpx : p ≠ x := by
              intro e2
              subst e2
              rw [hp] at hxs
              cases hxs
            rw [RawComponent.get_insert_ne _ _ _ _ hcx,
              RawComponent.get_insert_ne _ _ _ _ hpx]
            exact hxs
          · have hxc2 : x = c := by simpa using hxc
            subst hxc2
            rw [RawComponent.get_insert_self]
        · rw [RawComponent.get_insert_ne _ _ _ _ epq] at hq
          have hxs := h2 q d hq x hx
          have hcx : c ≠ x := by intro e2; subst e2; rw [hc] at hxs; cases hxs
          have hpx : p ≠ x := by intro e2; subst e2; rw [hp] at hxs; cases hxs
          rw [RawComponent.get_insert_ne _ _ _ _ hcx,
            RawComponent.get_insert_ne _ _ _ _ hpx]
          exact hxs

/-- Inversion of a successful run on a nonempty call list. -/
theorem MonotypeBipartite.runOps_ok_cons {s t : MonotypeBipartite} {op : Op}
    {ops : List Op} (h : s.runOps (op :: ops) = some t) :
    ∃ s1, s.applyOp op = .ok s1 ∧ s1.runOps ops = some t := by
  cases ha : s.applyOp op with
  | ok s1 =>
    refine ⟨s1, rfl, ?_⟩
    simp only [MonotypeBipartite.runOps, ha] at h
    exact h
  | panicked s1 =>
    simp only [MonotypeBipartite.runOps, ha] at h
    cases h

/-- A successful run preserves the depth-one-forest invariant. -/
theorem MonotypeBipartite.runOps_inv {ops : List Op} :
    ∀ {s t : MonotypeBipartite}, s.Inv → s.runOps ops = some t → t.Inv := by
  induction ops with
  | nil =>
    intro s t hInv h
    simp only [MonotypeBipartite.runOps, Option.some.injEq] at h
    subst h
    exact hInv
  | cons op rest ih =>
    intro s t hInv h
    obtain ⟨s1, ha, hr⟩ := MonotypeBipartite.runOps_ok_cons h
    exact ih (MonotypeBipartite.applyOp_inv hInv ha) hr

/-- A successful run never removes an entry and never changes its role. -/
theorem MonotypeBipartite.runOps_mono {ops : List Op} :
    ∀ {s t : MonotypeBipartite}, s.runOps ops = some t →
      ∀ i r, s.values.get i = some r →
        ∃ r2, t.values.get i = some r2 ∧ r.isParentTag = r2.isParentTag := by
  induction ops with
  | nil =>
    intro s t h i r hg
    simp only [MonotypeBipartite.runOps, Option.some.injEq] at h
    subst h
    exact ⟨r, hg, rfl⟩
  | cons op rest ih =>
    intro s t h i r hg
    obtain ⟨s1, ha, hr⟩ := MonotypeBipartite.runOps_ok_cons h
    obtain ⟨r1, hg1, ht1⟩ := MonotypeBipartite.applyOp_mono ha i r hg
    obtain ⟨r2, hg2, ht2⟩ := ih hr i r1 hg1
    exact ⟨r2, hg2, ht1.trans ht2⟩

/-- The empty store satisfies the invariant. -/
theorem MonotypeBipartite.empty_inv : MonotypeBipartite.empty.Inv := by
  constructor
  · intro c p h
    simp [MonotypeBipartite.empty, RawComponent.empty, RawComponent.get] at h
  · intro p ch h x hx
    simp [MonotypeBipartite.empty, RawComponent.empty, RawComponent.get] at h

/-- One successful call never removes an entry and never changes its role. -/
theorem RangeRelations.range_applyOp_mono {s t : RangeRelations} {op : Op}
    (h : s.applyOp op = .ok t) (i : Nat) (r : RangeRelation)
    (hg : s.values.get i = some r) :
    ∃ r2, t.values.get i = some r2 ∧ r.is_parent = r2.is_parent := by
  cases op with
  | insertParent p =>
    obtain ⟨hp, ht⟩ := RangeRelations.range_insert_parent_ok h
    subst ht
    have hip : p ≠ i := by intro e; subst e; rw [hp] at hg; cases hg
    exact ⟨r, by rw [RawComponent.get_insert_ne _ _ _ _ hip]; exact hg, rfl⟩
  | insertChild c p =>
    obtain ⟨ra, r1, hp, ha, hc, hcp, ht⟩ := RangeRelations.range_insert_child_ok h
    subst ht
    have hci : c ≠ i := by intro e; subst e; rw [hc] at hg; cases hg
    by_cases hpi : p = i
    · subst hpi
      rw [hp] at hg
      cases hg
      refine ⟨.ParentOf r1, ?_, rfl⟩
      rw [RawComponent.get_insert_ne _ _ _ _ hci, RawComponent.get_insert_self]
    · exact ⟨r, by rw [RawComponent.get_insert_ne _ _ _ _ hci,
        RawComponent.get_insert_ne _ _ _ _ hpi]; exact hg, rfl⟩

/-- One successful call preserves the depth-one-forest invariant. -/
theorem RangeRelations.range_applyOp_inv {s t : RangeRelations} {op : Op}
    (hInv : s.Inv) (h : s.applyOp op = .ok t) : t.Inv := by
  obtain ⟨h1, h2⟩ := hInv
  cases op with
  | insertParent p =>
    obtain ⟨hp, ht⟩ := RangeRelations.range_insert_parent_ok h
    subst ht
    constructor
    · intro x q hx
      by_cases e : p = x
      · subst e
        rw [RawComponent.get_insert_self] at hx
        cases hx
      · rw [RawComponent.get_insert_ne _ _ _ _ e] at hx
        obtain ⟨ch, hq⟩ := h1 x q hx
        have hpq : p ≠ q := by intro e2; subst e2; rw [hp] at hq; cases hq
        exact ⟨ch, by rw [RawComponent.get_insert_ne _ _ _ _ hpq]; exact hq⟩
    · intro q ch hq x hx
      by_cases e : p = q
      · subst e
        rw [RawComponent.get_insert_self] at hq
        cases hq
        simp [IdRange.contains, IdRange.default] at hx
      · rw [RawComponent.get_insert_ne _ _ _ _ e] at hq
        have hxs := h2 q ch hq x hx
        have hpx : p ≠ x := by intro e2; subst e2; rw [hp] at hxs; cases hxs
        rw [RawComponent.get_insert_ne _ _ _ _ hpx]
        exact hxs
  | insertChild c p =>
    obtain ⟨ra, r1, hp, ha, hc, hcp, ht⟩ := RangeRelations.range_insert_child_ok h
    subst ht
    constructor
    · intro x q hx
      by_cases ecx : c = x
      · subst ecx
        rw [RawComponent.get_insert_self] at hx
        cases hx
        refine ⟨r1, ?_⟩
        rw [RawComponent.get_insert_ne _ _ _ _ hcp, RawComponent.get_insert_self]
      · rw [RawComponent.get_insert_ne _ _ _ _ ecx] at hx
        by_cases epx : p = x
        · subst epx
          rw [RawComponent.get_insert_self] at hx
          cases hx
        · rw [RawComponent.get_insert_ne _ _ _ _ epx] at hx
          obtain ⟨d, hq⟩ := h1 x q hx
          by_cases epq : p = q
          · subst epq
            refine ⟨r1, ?_⟩
            rw [RawComponent.get_insert_ne _ _ _ _ hcp,
              RawComponent.get_insert_self]
          · have hcq : c ≠ q := by intro e2; subst e2; rw [hc] at hq; cases hq
            refine ⟨d, ?_⟩
            rw [RawComponent.get_insert_ne _ _ _ _ hcq,
              RawComponent.get_insert_ne _ _ _ _ epq]
            exact hq
    · intro q d hq x hx
      by_cases ecq : c = q
      · subst ecq
        rw [RawComponent.get_insert_self] at hq
        cases hq
      · rw [RawComponent.get_insert_ne _ _ _ _ ecq] at hq
        by_cases epq : p = q
        · subst epq
          rw [RawComponent.get_insert_self] at hq
          cases hq
          rcases (IdRange.contains_append ha).mp hx with hxch | hxc
          · have hxs := h2 p ra hp x hxch
            have hcx : c ≠ x := by intro e2; subst e2; rw [hc] at hxs; cases hxs
            have hpx : p ≠ x := by
              intro e2
              subst e2
              rw [hp] at hxs
              cases hxs
            rw [RawComponent.get_insert_ne _ _ _ _ hcx,
              RawComponent.get_insert_ne _ _ _ _ hpx]
            exact hxs
          · subst hxc
            rw [RawComponent.get_insert_self]
        · rw [RawComponent.get_insert_ne _ _ _ _ epq] at hq
          have hxs := h2 q d hq x hx
          have hcx : c ≠ x := by intro e2; subst e2; rw [hc] at hxs; cases hxs
          have hpx : p ≠ x := by intro e2; subst e2; rw [hp] at hxs; cases hxs
          rw [RawComponent.get_insert_ne _ _ _ _ hcx,
            RawComponent.get_insert_ne _ _ _ _ hpx]
          exact hxs

/-- Inversion of a successful run on a nonempty call list. -/
theorem RangeRelations.range_runOps_ok_cons {s t : RangeRelations} {op : Op}
    {ops : List Op} (h : s.runOps (op :: ops) = some t) :
    ∃ s1, s.applyOp op = .ok s1 ∧ s1.runOps ops = some t := by
  cases ha : s.applyOp op with
  | ok s1 =>
    refine ⟨s1, rfl, ?_⟩
    simp only [RangeRelations.runOps, ha] at h
    exact h
  | panicked s1 =>
    simp only [RangeRelations.runOps, ha] at h
    cases h

/-- A successful run preserves the depth-one-forest invariant. -/
theorem RangeRelations.range_runOps_inv {ops : List Op} :
    ∀ {s t : RangeRelations}, s.Inv → s.runOps ops = some t → t.Inv := by
  induction ops with
  | nil =>
    intro s t hInv h
    simp only [RangeRelations.runOps, Option.some.injEq] at h
    subst h
    exact hInv
  | cons op rest ih =>
    intro s t hInv h
    obtain ⟨s1, ha, hr⟩ := RangeRelations.range_runOps_ok_cons h
    exact ih (RangeRelations.range_applyOp_inv hInv ha) hr

/-- A successful run never removes an entry and never changes its role. -/
theorem RangeRelations.range_runOps_mono {ops : List Op} :
    ∀ {s t : RangeRelations}, s.runOps ops = some t →
      ∀ i r, s.values.get i = some r →
        ∃ r2, t.values.get i = some r2 ∧ r.is_parent = r2.is_parent := by
  induction ops with
  | nil =>
    intro s t h i r hg
    simp only [RangeRelations.runOps, Option.some.injEq] at h
    subst h
    exact ⟨r, hg, rfl⟩
  | cons op rest ih =>
    intro s t h i r hg
    obtain ⟨s1, ha, hr⟩ := RangeRelations.range_runOps_ok_cons h
    obtain ⟨r1, hg1, ht1⟩ := RangeRelations.range_applyOp_mono ha i r hg
    obtain ⟨r2, hg2, ht2⟩ := ih hr i r1 hg1
    exact ⟨r2, hg2, ht1.trans ht2⟩

/-- The empty store satisfies the invariant. -/
theorem RangeRelations.range_empty_inv : RangeRelations.empty.Inv := by
  constructor
  · intro c p h
    simp [RangeRelations.empty, RawComponent.empty, RawComponent.get] at h
  · intro p ch h x hx
    simp [RangeRelations.empty, RawComponent.empty, RawComponent.get] at h

/-- One successful call never removes an entry and never changes its role. -/
theorem VecRelations.vec_applyOp_mono {s t : VecRelations} {op : Op}
    (h : s.applyOp op = .ok t) (i : Nat) (r : VecRelation)
    (hg : s.values.get i = some r) :
    ∃ r2, t.values.get i = some r2 ∧ r.is_parent = r2.is_parent := by
  cases op with
  | insertParent p =>
    obtain ⟨hp, ht⟩ := VecRelations.vec_insert_parent_ok h
    subst ht
    have hip : p ≠ i := by intro e; subst e; rw [hp] at hg; cases hg
    exact ⟨r, by rw [RawComponent.get_insert_ne _ _ _ _ hip]; exact hg, rfl⟩
  | insertChild c p =>
    obtain ⟨ch, hp, hc, hcp, ht⟩ := VecRelations.vec_insert_child_ok h
    subst ht
    have hci : c ≠ i := by intro e; subst e; rw [hc] at hg; cases hg
    by_cases hpi : p = i
    · subst hpi
      rw [hp] at hg
      cases hg
      refine ⟨.ParentOf (ch ++ [c]), ?_, rfl⟩
      rw [RawComponent.get_insert_ne _ _ _ _ hci, RawComponent.get_insert_self]
    · exact ⟨r, by rw [RawComponent.get_insert_ne _ _ _ _ hci,
        RawComponent.get_insert_ne _ _ _ _ hpi]; exact hg, rfl⟩

/-- Inversion of a successful run on a nonempty call list. -/
theorem VecRelations.vec_runOps_ok_cons {s t : VecRelations} {op : Op}
    {ops : List Op} (h : s.runOps (op :: ops) = some t) :
    ∃ s1, s.applyOp op = .ok s1 ∧ s1.runOps ops = some t := by
  cases ha : s.applyOp op with
  | ok s1 =>
    refine ⟨s1, rfl, ?_⟩
    simp only [VecRelations.runOps, ha] at h
    exact h
  | panicked s1 =>
    simp only [VecRelations.runOps, ha] at h
    cases h

/-- A successful run never removes an entry and never changes its role. -/
theorem VecRelations.vec_runOps_mono {ops : List Op} :
    ∀ {s t : VecRelations}, s.runOps ops = some t →
      ∀ i r, s.values.get i = some r →
        ∃ r2, t.values.get i = some r2 ∧ r.is_parent = r2.is_parent := by
  induction ops with
  | nil =>
    intro s t h i r hg
    simp only [VecRelations.runOps, Option.some.injEq] at h
    subst h
    exact ⟨r, hg, rfl⟩
  | cons op rest ih =>
    intro s t h i r hg
    obtain ⟨s1, ha, hr⟩ := VecRelations.vec_runOps_ok_cons h
    obtain ⟨r1, hg1, ht1⟩ := VecRelations.vec_applyOp_mono ha i r hg
    obtain ⟨r2, hg2, ht2⟩ := ih hr i r1 hg1
    exact ⟨r2, hg2, ht1.trans ht2⟩

/-- A successful call targeting `i` leaves an entry at `i`. -/
theorem MonotypeBipartite.applyOp_target {s t : MonotypeBipartite} {op : Op}
    (h : s.applyOp op = .ok t) (i : Nat) (hi : op.targets i) :
    ∃ r, t.values.get i = some r := by
  cases op with
  | insertParent p =>
    obtain ⟨hp, ht⟩ := MonotypeBipartite.insert_parent_ok h
    subst ht
    have e : i = p := hi
    subst e
    exact ⟨.ParentOf [], RawComponent.get_insert_self _ _ _⟩
  | insertChild c p =>
    obtain ⟨ch, hp, hc, hcp, ht⟩ := MonotypeBipartite.insert_child_ok h
    subst ht
    have e : i = c := hi
    subst e
    exact ⟨.ChildOf p, RawComponent.get_insert_self _ _ _⟩

/-- A successful call targeting `i` leaves an entry at `i`. -/
theorem VecRelations.vec_applyOp_target {s t : VecRelations} {op : Op}
    (h : s.applyOp op = .ok t) (i : Nat) (hi : op.targets i) :
    ∃ r, t.values.get i = some r := by
  cases op with
  | insertParent p =>
    obtain ⟨hp, ht⟩ := VecRelations.vec_insert_parent_ok h
    subst ht
    have e : i = p := hi
    subst e
    exact ⟨.ParentOf [], RawComponent.get_insert_self _ _ _⟩
  | insertChild c p =>
    obtain ⟨ch, hp, hc, hcp, ht⟩ := VecRelations.vec_insert_child_ok h
    subst ht
    have e : i = c := hi
    subst e
    exact ⟨.ChildOf p, RawComponent.get_insert_self _ _ _⟩

/-- A successful call targeting `i` leaves an entry at `i`. -/
theorem RangeRelations.range_applyOp_target {s t : RangeRelations} {op : Op}
    (h : s.applyOp op = .ok t) (i : Nat) (hi : op.targets i) :
    ∃ r, t.values.get i = some r := by
  cases op with
  | insertParent p =>
    obtain ⟨hp, ht⟩ := RangeRelations.range_insert_parent_ok h
    subst ht
    have e : i = p := hi
    subst e
    exact ⟨.ParentOf IdRange.default, RawComponent.get_insert_self _ _ _⟩
  | insertChild c p =>
    obtain ⟨ra, r1, hp, ha, hc, hcp, ht⟩ := RangeRelations.range_insert_child_ok h
    subst ht
    have e : i = c := hi
    subst e
    exact ⟨.ChildOf p, RawComponent.get_insert_self _ _ _⟩

/-- An id inserted somewhere during a successful run has an entry at the
end of the run. -/
theorem MonotypeBipartite.runOps_inserted {ops : List Op} :
    ∀ {s t : MonotypeBipartite}, s.runOps ops = some t →
      ∀ i, (∃ op ∈ ops, op.targets i) → ∃ r, t.values.get i = some r := by
  induction ops with
  | nil =>
    intro s t h i hop
    obtain ⟨op, hmem, hti⟩ := hop
    cases hmem
  | cons op rest ih =>
    intro s t h i hop
    obtain ⟨s1, ha, hr⟩ := MonotypeBipartite.runOps_ok_cons h
    obtain ⟨op2, hmem, hti⟩ := hop
    rcases List.mem_cons.mp hmem with he | hm
    · subst he
      obtain ⟨r, hri⟩ := MonotypeBipartite.applyOp_target ha i hti
      obtain ⟨r2, hg2, ht2⟩ := MonotypeBipartite.runOps_mono hr i r hri
      exact ⟨r2, hg2⟩
    · exact ih hr i ⟨op2, hm, hti⟩

/-- An id inserted somewhere during a successful run has an entry at the
end of the run. -/
theorem VecRelations.vec_runOps_inserted {ops : List Op} :
    ∀ {s t : VecRelations}, s.runOps ops = some t →
      ∀ i, (∃ op ∈ ops, op.targets i) → ∃ r, t.values.get i = some r := by
  induction ops with
  | nil =>
    intro s t h i hop
    obtain ⟨op, hmem, hti⟩ := hop
    cases hmem
  | cons op rest ih =>
    intro s t h i hop
    obtain ⟨s1, ha, hr⟩ := VecRelations.vec_runOps_ok_cons h
    obtain ⟨op2, hmem, hti⟩ := hop
    rcases List.mem_cons.mp hmem with he | hm
    · subst he
      obtain ⟨r, hri⟩ := VecRelations.vec_applyOp_target ha i hti
      obtain ⟨r2, hg2, ht2⟩ := VecRelations.vec_runOps_mono hr i r hri
      exact ⟨r2, hg2⟩
    · exact ih hr i ⟨op2, hm, hti⟩

/-- An id inserted somewhere during a successful run has an entry at the
end of the run. -/
theorem RangeRelations.range_runOps_inserted {ops : List Op} :
    ∀ {s t : RangeRelations}, s.runOps ops = some t →
      ∀ i, (∃ op ∈ ops, op.targets i) → ∃ r, t.values.get i = some r := by
  induction ops with
  | nil =>
    intro s t h i hop
    obtain ⟨op, hmem, hti⟩ := hop
    cases hmem
  | cons op rest ih =>
    intro s t h i hop
    obtain ⟨s1, ha, hr⟩ := RangeRelations.range_runOps_ok_cons h
    obtain ⟨op2, hmem, hti⟩ := hop
    rcases List.mem_cons.mp hmem with he | hm
    · subst he
      obtain ⟨r, hri⟩ := RangeRelations.range_applyOp_target ha i hti
      obtain ⟨r2, hg2, ht2⟩ := RangeRelations.range_runOps_mono hr i r hri
      exact ⟨r2, hg2⟩
    · exact ih hr i ⟨op2, hm, hti⟩

/-- When every input id has an entry, `parents` returns exactly the filtered
subsequence of ids whose entry matches `ParentOf(_)`. -/
theorem RangeRelations.parents_all_present (s : RangeRelations) :
    ∀ ids : List Nat, (∀ i ∈ ids, (s.values.get i).isSome = true) →
      s.parents ids = some (ids.filter s.isParentAt) := by
  intro ids
  induction ids with
  | nil => intro h; rfl
  | cons i rest ih =>
    intro h
    have hi : (s.values.get i).isSome = true := h i (List.mem_cons_self i rest)
    obtain ⟨r, hr⟩ := Option.isSome_iff_exists.mp hi
    have hrest := ih (fun j hj => h j (List.mem_cons_of_mem i hj))
    cases r with
    | ParentOf d =>
      simp only [RangeRelations.parents, hr, hrest, Option.map_some']
      simp [List.filter_cons, RangeRelations.isParentAt, hr]
    | ChildOf q =>
      simp only [RangeRelations.parents, hr, hrest, Option.map_some']
      simp [List.filter_cons, RangeRelations.isParentAt, hr]

/-- An absent id anywhere in the input makes the `parents` traversal hit the
panicking indexed lookup. -/
theorem RangeRelations.parents_absent (s : RangeRelations) :
    ∀ ids : List Nat, (∃ i ∈ ids, s.values.get i = none) →
      s.parents ids = none := by
  intro ids
  induction ids with
  | nil =>
    intro h
    obtain ⟨i, hm, hi⟩ := h
    cases hm
  | cons i rest ih =>
    intro h
    obtain ⟨j, hm, hj⟩ := h
    rcases List.mem_cons.mp hm with he | hmr
    · subst he
      simp only [RangeRelations.parents, hj]
    · cases hg : s.values.get i with
      | none => simp only [RangeRelations.parents, hg]
      | some r =>
        have hrest := ih ⟨j, hmr, hj⟩
        simp [RangeRelations.parents, hg, hrest]

/-- The indexed lookup reads the backing map directly. -/
theorem MonotypeBipartite.index_eq (s : MonotypeBipartite) (i : Nat) :
    s.index i = s.values.get i := rfl

/-- The indexed lookup reads the backing map directly. -/
theorem VecRelations.vec_index_eq (s : VecRelations) (i : Nat) :
    s.index i = s.values.get i := rfl

/-- The indexed lookup reads the backing map directly. -/
theorem RangeRelations.range_index_eq (s : RangeRelations) (i : Nat) :
    s.index i = s.values.get i := rfl

/-- C3: any second insertion over an id that already holds an entry panics
(fail-fast, never a silent success): a repeated `insert_parent`, and an
`insert_child` whose child id already has an entry, panic on both the
`MonotypeBipartite` and `RangeRelations` backends, whatever the prior role
of the entried id. -/
theorem c3_second_insertion_fails :
    (∀ (s : MonotypeBipartite) p, (s.values.get p).isSome = true →
      s.insert_parent p = .panicked s) ∧
    (∀ (s : MonotypeBipartite) c p, (s.values.get c).isSome = true →
      ∃ t, s.insert_child c p = .panicked t) ∧
    (∀ (s : RangeRelations) p, (s.values.get p).isSome = true →
      s.insert_parent p = .panicked s) ∧
    (∀ (s : RangeRelations) c p, (s.values.get c).isSome = true →
      ∃ t, s.insert_child c p = .panicked t) :=
  ⟨MonotypeBipartite.insert_parent_occupied,
   MonotypeBipartite.insert_child_occupied,
   RangeRelations.range_insert_parent_occupied,
   RangeRelations.range_insert_child_occupied⟩

/-- Witness for C3 on concrete one-entry stores. -/
theorem c3_second_insertion_fails_witness :
    (MonotypeBipartite.insert_parent ⟨[(0, .ParentOf [])]⟩ 0 =
      .panicked ⟨[(0, .ParentOf [])]⟩) ∧
    (∃ t, MonotypeBipartite.insert_child ⟨[(0, .ParentOf [])]⟩ 0 1 =
      .panicked t) ∧
    (RangeRelations.insert_parent ⟨[(0, .ParentOf IdRange.default)]⟩ 0 =
      .panicked ⟨[(0, .ParentOf IdRange.default)]⟩) ∧
    (∃ t, RangeRelations.insert_child ⟨[(0, .ParentOf IdRange.default)]⟩ 0 1 =
      .panicked t) :=
  ⟨c3_second_insertion_fails.1 _ 0 (by decide),
   c3_second_insertion_fails.2.1 _ 0 1 (by decide),
   c3_second_insertion_fails.2.2.1 _ 0 (by decide),
   c3_second_insertion_fails.2.2.2 _ 0 1 (by decide)⟩

/-- C4: `insert_child(c, p)` panics whenever `p` does not currently hold a
`ParentOf` entry: both when `p` has no entry at all and when `p` holds a
`ChildOf` entry (depth-1 enforcement), on both the `MonotypeBipartite` and
`RangeRelations` backends; the store is unchanged at the panic. -/
theorem c4_child_under_non_parent_fails :
    (∀ (s : MonotypeBipartite) c p, s.values.get p = none →
      s.insert_child c p = .panicked s) ∧
    (∀ (s : MonotypeBipartite) c p q, s.values.get p = some (.ChildOf q) →
      s.insert_child c p = .panicked s) ∧
    (∀ (s : RangeRelations) c p, s.values.get p = none →
      s.insert_child c p = .panicked s) ∧
    (∀ (s : RangeRelations) c p q, s.values.get p = some (.ChildOf q) →
      s.insert_child c p = .panicked s) :=
  ⟨MonotypeBipartite.insert_child_no_entry,
   MonotypeBipartite.insert_child_under_child,
   RangeRelations.range_insert_child_no_entry,
   RangeRelations.range_insert_child_under_child⟩

/-- Witness for C4 on concrete stores. -/
theorem c4_child_under_non_parent_fails_witness :
    (MonotypeBipartite.insert_child .empty 1 0 = .panicked .empty) ∧
    (MonotypeBipartite.insert_child ⟨[(0, .ChildOf 5)]⟩ 1 0 =
      .panicked ⟨[(0, .ChildOf 5)]⟩) ∧
    (RangeRelations.insert_child .empty 1 0 = .panicked .empty) ∧
    (RangeRelations.insert_child ⟨[(0, .ChildOf 5)]⟩ 1 0 =
      .panicked ⟨[(0, .ChildOf 5)]⟩) :=
  ⟨c4_child_under_non_parent_fails.1 _ 1 0 (by decide),
   c4_child_under_non_parent_fails.2.1 _ 1 0 5 (by decide),
   c4_child_under_non_parent_fails.2.2.1 _ 1 0 (by decide),
   c4_child_under_non_parent_fails.2.2.2 _ 1 0 5 (by decide)⟩

/-- C5: on the duplicate-child violation path, `insert_child(c, p)` is not
atomic: with `p` holding `ParentOf` and `c` already entried, the parent's
child collection is mutated (appending `c`) before the violation on `c` is
detected, so the state at the panic already shows `c` in `p`'s collection
while `c`'s own entry is unchanged — on all three backends (on the range
backend the append happens when `c` is contiguous with the range). -/
theorem c5_insert_child_not_atomic :
    (∀ (s : MonotypeBipartite) c p ch e,
      s.values.get p = some (.ParentOf ch) → s.values.get c = some e →
      c ≠ p →
      ∃ t, s.insert_child c p = .panicked t ∧
        t.values.get p = some (.ParentOf (ch ++ [c])) ∧
        t.values.get c = some e) ∧
    (∀ (s : VecRelations) c p ch e,
      s.values.get p = some (.ParentOf ch) → s.values.get c = some e →
      c ≠ p →
      ∃ t, s.insert_child c p = .panicked t ∧
        t.values.get p = some (.ParentOf (ch ++ [c])) ∧
        t.values.get c = some e) ∧
    (∀ (s : RangeRelations) c p r r1 e,
      s.values.get p = some (.ParentOf r) → r.append c = some r1 →
      s.values.get c = some e → c ≠ p →
      ∃ t, s.insert_child c p = .panicked t ∧
        t.values.get p = some (.ParentOf r1) ∧
        t.values.get c = some e) :=
  ⟨MonotypeBipartite.insert_child_duplicate,
   VecRelations.vec_insert_child_duplicate,
   RangeRelations.range_insert_child_duplicate⟩

/-- Witness for C5 on concrete stores. -/
theorem c5_insert_child_not_atomic_witness :
    (∃ t, MonotypeBipartite.insert_child
        ⟨[(0, .ParentOf []), (1, .ChildOf 0)]⟩ 1 0 = .panicked t ∧
      t.values.get 0 = some (.ParentOf ([] ++ [1])) ∧
      t.values.get 1 = some (.ChildOf 0)) ∧
    (∃ t, VecRelations.insert_child
        ⟨[(0, .ParentOf []), (1, .ChildOf 0)]⟩ 1 0 = .panicked t ∧
      t.values.get 0 = some (.ParentOf ([] ++ [1])) ∧
      t.values.get 1 = some (.ChildOf 0)) ∧
    (∃ t, RangeRelations.insert_child
        ⟨[(0, .ParentOf ⟨1, 2⟩), (1, .ChildOf 0), (2, .ChildOf 0)]⟩ 2 0 =
        .panicked t ∧
      t.values.get 0 = some (.ParentOf ⟨1, 3⟩) ∧
      t.values.get 2 = some (.ChildOf 0)) :=
  ⟨c5_insert_child_not_atomic.1 _ 1 0 [] (.ChildOf 0)
      (by decide) (by decide) (by decide),
   c5_insert_child_not_atomic.2.1 _ 1 0 [] (.ChildOf 0)
      (by decide) (by decide) (by decide),
   c5_insert_child_not_atomic.2.2 _ 2 0 ⟨1, 2⟩ ⟨1, 3⟩ (.ChildOf 0)
      (by decide) (by decide) (by decide) (by decide)⟩

/-- C8: the Relation Value accessors behave per their tags on both the range
and vec relation types: `parent_of` yields the child collection exactly on
`ParentOf`, `child_of` yields the parent id exactly on `ChildOf`,
`is_parent`/`is_child` are the two tag tests, and `parent()` builds a
`ParentOf` with an empty collection. -/
theorem c8_relation_value_accessors :
    ((∀ ch, (RangeRelation.ParentOf ch).parent_of = some ch ∧
        (RangeRelation.ParentOf ch).child_of = none ∧
        (RangeRelation.ParentOf ch).is_parent = true ∧
        (RangeRelation.ParentOf ch).is_child = false) ∧
      (∀ p, (RangeRelation.ChildOf p).parent_of = none ∧
        (RangeRelation.ChildOf p).child_of = some p ∧
        (RangeRelation.ChildOf p).is_parent = false ∧
        (RangeRelation.ChildOf p).is_child = true) ∧
      RangeRelation.parent = .ParentOf IdRange.default ∧
      IdRange.default.len = 0) ∧
    ((∀ ch, (VecRelation.ParentOf ch).parent_of = some ch ∧
        (VecRelation.ParentOf ch).child_of = none ∧
        (VecRelation.ParentOf ch).is_parent = true ∧
        (VecRelation.ParentOf ch).is_child = false) ∧
      (∀ p, (VecRelation.ChildOf p).parent_of = none ∧
        (VecRelation.ChildOf p).child_of = some p ∧
        (VecRelation.ChildOf p).is_parent = false ∧
        (VecRelation.ChildOf p).is_child = true) ∧
      VecRelation.parent = .ParentOf []) :=
  ⟨⟨fun ch => ⟨rfl, rfl, rfl, rfl⟩, fun p => ⟨rfl, rfl, rfl, rfl⟩, rfl, rfl⟩,
   ⟨fun ch => ⟨rfl, rfl, rfl, rfl⟩, fun p => ⟨rfl, rfl, rfl, rfl⟩, rfl⟩⟩

/-- C10: frame property — a successful `insert_parent p` leaves every entry
other than `p` unchanged, and a successful `insert_child c p` leaves every
entry other than `c` and `p` unchanged, on all three backends. -/
theorem c10_unaffected_ids_unchanged :
    (∀ (s s' : MonotypeBipartite) p, s.insert_parent p = .ok s' →
      ∀ q, q ≠ p → s'.values.get q = s.values.get q) ∧
    (∀ (s s' : MonotypeBipartite) c p, s.insert_child c p = .ok s' →
      ∀ q, q ≠ c → q ≠ p → s'.values.get q = s.values.get q) ∧
    (∀ (s s' : VecRelations) p, s.insert_parent p = .ok s' →
      ∀ q, q ≠ p → s'.values.get q = s.values.get q) ∧
    (∀ (s s' : VecRelations) c p, s.insert_child c p = .ok s' →
      ∀ q, q ≠ c → q ≠ p → s'.values.get q = s.values.get q) ∧
    (∀ (s s' : RangeRelations) p, s.insert_parent p = .ok s' →
      ∀ q, q ≠ p → s'.values.get q = s.values.get q) ∧
    (∀ (s s' : RangeRelations) c p, s.insert_child c p = .ok s' →
      ∀ q, q ≠ c → q ≠ p → s'.values.get q = s.values.get q) := by
  refine ⟨?_, ?_, ?_, ?_, ?_, ?_⟩
  · intro s s' p h q hq
    obtain ⟨hp, ht⟩ := MonotypeBipartite.insert_parent_ok h
    subst ht
    exact RawComponent.get_insert_ne _ _ _ _ (Ne.symm hq)
  · intro s s' c p h q hqc hqp
    obtain ⟨ch, hp, hc, hcp, ht⟩ := MonotypeBipartite.insert_child_ok h
    subst ht
    rw [RawComponent.get_insert_ne _ _ _ _ (Ne.symm hqc),
      RawComponent.get_insert_ne _ _ _ _ (Ne.symm hqp)]
  · intro s s' p h q hq
    obtain ⟨hp, ht⟩ := VecRelations.vec_insert_parent_ok h
    subst ht
    exact RawComponent.get_insert_ne _ _ _ _ (Ne.symm hq)
  · intro s s' c p h q hqc hqp
    obtain ⟨ch, hp, hc, hcp, ht⟩ := VecRelations.vec_insert_child_ok h
    subst ht
    rw [RawComponent.get_insert_ne _ _ _ _ (Ne.symm hqc),
      RawComponent.get_insert_ne _ _ _ _ (Ne.symm hqp)]
  · intro s s' p h q hq
    obtain ⟨hp, ht⟩ := RangeRelations.range_insert_parent_ok h
    subst ht
    exact RawComponent.get_insert_ne _ _ _ _ (Ne.symm hq)
  · intro s s' c p h q hqc hqp
    obtain ⟨r, r1, hp, ha, hc, hcp, ht⟩ := RangeRelations.range_insert_child_ok h
    subst ht
    rw [RawComponent.get_insert_ne _ _ _ _ (Ne.symm hqc),
      RawComponent.get_insert_ne _ _ _ _ (Ne.symm hqp)]

/-- Witness for C10 on concrete one- and two-call stores. -/
theorem c10_unaffected_ids_unchanged_witness :
    ((⟨[(0, .ParentOf [])]⟩ : MonotypeBipartite).values.get 5 =
      MonotypeBipartite.empty.values.get 5) ∧
    ((⟨[(1, .ChildOf 0), (0, .ParentOf [1]), (0, .ParentOf [])]⟩ :
        MonotypeBipartite).values.get 5 =
      (⟨[(0, .ParentOf [])]⟩ : MonotypeBipartite).values.get 5) ∧
    ((⟨[(0, .ParentOf [])]⟩ : VecRelations).values.get 5 =
      VecRelations.empty.values.get 5) ∧
    ((⟨[(1, .ChildOf 0), (0, .ParentOf [1]), (0, .ParentOf [])]⟩ :
        VecRelations).values.get 5 =
      (⟨[(0, .ParentOf [])]⟩ : VecRelations).values.get 5) ∧
    ((⟨[(0, .ParentOf IdRange.default)]⟩ : RangeRelations).values.get 5 =
      RangeRelations.empty.values.get 5) ∧
    ((⟨[(1, .ChildOf 0), (0, .ParentOf ⟨1, 2⟩),
          (0, .ParentOf IdRange.default)]⟩ : RangeRelations).values.get 5 =
      (⟨[(0, .ParentOf IdRange.default)]⟩ : RangeRelations).values.get 5) :=
  ⟨c10_unaffected_ids_unchanged.1 .empty _ 0 (by decide) 5 (by decide),
   c10_unaffected_ids_unchanged.2.1 ⟨[(0, .ParentOf [])]⟩ _ 1 0
     (by decide) 5 (by decide) (by decide),
   c10_unaffected_ids_unchanged.2.2.1 .empty _ 0 (by decide) 5 (by decide),
   c10_unaffected_ids_unchanged.2.2.2.1 ⟨[(0, .ParentOf [])]⟩ _ 1 0
     (by decide) 5 (by decide) (by decide),
   c10_unaffected_ids_unchanged.2.2.2.2.1 .empty _ 0 (by decide) 5 (by decide),
   c10_unaffected_ids_unchanged.2.2.2.2.2 ⟨[(0, .ParentOf IdRange.default)]⟩
     _ 1 0 (by decide) 5 (by decide) (by decide)⟩

/-- C2: for distinct fresh ids `p` and `c`, `insert_parent(p)` succeeds with
`store[p] = ParentOf([])`, and a subsequent `insert_child(c, p)` succeeds
with `store[p] = ParentOf([c])` and `store[c] = ChildOf(p)`, on both the
`MonotypeBipartite` and `VecRelations` backends. -/
theorem c2_fresh_parent_then_child
    (sM : MonotypeBipartite) (sV : VecRelations) (p c : Nat)
    (hMp : sM.values.get p = none) (hMc : sM.values.get c = none)
    (hVp : sV.values.get p = none) (hVc : sV.values.get c = none)
    (hne : c ≠ p) :
    (∃ s1 s2, sM.insert_parent p = .ok s1 ∧
      s1.index p = some (.ParentOf []) ∧
      s1.insert_child c p = .ok s2 ∧
      s2.index p = some (.ParentOf [c]) ∧
      s2.index c = some (.ChildOf p)) ∧
    (∃ s1 s2, sV.insert_parent p = .ok s1 ∧
      s1.index p = some (.ParentOf []) ∧
      s1.insert_child c p = .ok s2 ∧
      s2.index p = some (.ParentOf [c]) ∧
      s2.index c = some (.ChildOf p)) := by
  constructor
  · have h1 := MonotypeBipartite.insert_parent_fresh sM p hMp
    have e1 : (⟨sM.values.insert p (.ParentOf [])⟩ :
        MonotypeBipartite).values.get p = some (.ParentOf []) :=
      RawComponent.get_insert_self _ _ _
    have ec : (⟨sM.values.insert p (.ParentOf [])⟩ :
        MonotypeBipartite).values.get c = none := by
      show (sM.values.insert p (.ParentOf [])).get c = none
      rw [RawComponent.get_insert_ne _ _ _ _ (Ne.symm hne)]
      exact hMc
    have h2 := MonotypeBipartite.insert_child_fresh _ c p [] e1 ec hne
    refine ⟨_, _, h1, e1, h2, ?_, ?_⟩
    · show RawComponent.get _ p = _
      rw [RawComponent.get_insert_ne _ _ _ _ hne, RawComponent.get_insert_self]
      rfl
    · exact RawComponent.get_insert_self _ _ _
  · have h1 := VecRelations.vec_insert_parent_fresh sV p hVp
    have e1 : (⟨sV.values.insert p (.ParentOf [])⟩ :
        VecRelations).values.get p = some (.ParentOf []) :=
      RawComponent.get_insert_self _ _ _
    have ec : (⟨sV.values.insert p (.ParentOf [])⟩ :
        VecRelations).values.get c = none := by
      show (sV.values.insert p (.ParentOf [])).get c = none
      rw [RawComponent.get_insert_ne _ _ _ _ (Ne.symm hne)]
      exact hVc
    have h2 := VecRelations.vec_insert_child_fresh _ c p [] e1 ec hne
    refine ⟨_, _, h1, e1, h2, ?_, ?_⟩
    · show RawComponent.get _ p = _
      rw [RawComponent.get_insert_ne _ _ _ _ hne, RawComponent.get_insert_self]
      rfl
    · exact RawComponent.get_insert_self _ _ _

/-- Witness for C2 at the empty stores with `p = 0`, `c = 1`. -/
theorem c2_fresh_parent_then_child_witness :
    (∃ s1 s2, MonotypeBipartite.empty.insert_parent 0 = .ok s1 ∧
      s1.index 0 = some (.ParentOf []) ∧
      s1.insert_child 1 0 = .ok s2 ∧
      s2.index 0 = some (.ParentOf [1]) ∧
      s2.index 1 = some (.ChildOf 0)) ∧
    (∃ s1 s2, VecRelations.empty.insert_parent 0 = .ok s1 ∧
      s1.index 0 = some (.ParentOf []) ∧
      s1.insert_child 1 0 = .ok s2 ∧
      s2.index 0 = some (.ParentOf [1]) ∧
      s2.index 1 = some (.ChildOf 0)) :=
  c2_fresh_parent_then_child .empty .empty 0 1
    (by decide) (by decide) (by decide) (by decide) (by decide)

/-- C6: when every input id has an entry, `parents(ids)` yields exactly the
subsequence of input ids whose current entry is `ParentOf`, in input order
(a sublist of the input); an input containing an id with no entry hits the
panicking lookup, per the lookup contract. -/
theorem c6_parents_filters_input (s : RangeRelations) (ids : List Nat)
    (h : ∀ i ∈ ids, (s.values.get i).isSome = true) :
    s.parents ids = some (ids.filter s.isParentAt) ∧
    List.Sublist (ids.filter s.isParentAt) ids ∧
    ∀ ids2 : List Nat, (∃ i ∈ ids2, s.values.get i = none) →
      s.parents ids2 = none :=
  ⟨RangeRelations.parents_all_present s ids h,
   List.filter_sublist ids,
   RangeRelations.parents_absent s⟩

/-- Witness for C6 on a concrete store holding one parent and one child. -/
theorem c6_parents_filters_input_witness :
    (RangeRelations.parents ⟨[(0, .ParentOf ⟨1, 2⟩), (1, .ChildOf 0)]⟩
        [0, 1] =
      some (List.filter
        (RangeRelations.isParentAt ⟨[(0, .ParentOf ⟨1, 2⟩), (1, .ChildOf 0)]⟩)
        [0, 1])) ∧
    List.Sublist
      (List.filter
        (RangeRelations.isParentAt ⟨[(0, .ParentOf ⟨1, 2⟩), (1, .ChildOf 0)]⟩)
        [0, 1]) [0, 1] ∧
    ∀ ids2 : List Nat, (∃ i ∈ ids2,
        RawComponent.get [(0, RangeRelation.ParentOf ⟨1, 2⟩),
          (1, RangeRelation.ChildOf 0)] i = none) →
      RangeRelations.parents ⟨[(0, .ParentOf ⟨1, 2⟩), (1, .ChildOf 0)]⟩
        ids2 = none :=
  c6_parents_filters_input ⟨[(0, .ParentOf ⟨1, 2⟩), (1, .ChildOf 0)]⟩ [0, 1]
    (by decide)

/-- C9: the indexed lookup returns the stored Relation Value for any id that
was inserted at some point of a successful run from the empty store (the
missing-entry failure branch is unreachable for such ids), on all three
backends; looking up an id with no entry is itself the panic branch. -/
theorem c9_lookup_inserted_id_total :
    (∀ ops s i, MonotypeBipartite.empty.runOps ops = some s →
      (Op.insertParent i ∈ ops ∨ ∃ p, Op.insertChild i p ∈ ops) →
      ∃ r, s.index i = some r ∧ s.values.get i = some r) ∧
    (∀ ops s i, VecRelations.empty.runOps ops = some s →
      (Op.insertParent i ∈ ops ∨ ∃ p, Op.insertChild i p ∈ ops) →
      ∃ r, s.index i = some r ∧ s.values.get i = some r) ∧
    (∀ ops s i, RangeRelations.empty.runOps ops = some s →
      (Op.insertParent i ∈ ops ∨ ∃ p, Op.insertChild i p ∈ ops) →
      ∃ r, s.index i = some r ∧ s.values.get i = some r) ∧
    (∀ (s : MonotypeBipartite) i, s.values.get i = none →
      s.index i = none) ∧
    (∀ (s : VecRelations) i, s.values.get i = none → s.index i = none) ∧
    (∀ (s : RangeRelations) i, s.values.get i = none → s.index i = none) := by
  refine ⟨?_, ?_, ?_, fun s i h => h, fun s i h => h, fun s i h => h⟩
  · intro ops s i h hop
    have hop2 : ∃ op ∈ ops, op.targets i := by
      rcases hop with h1 | ⟨p, h2⟩
      · exact ⟨.insertParent i, h1, rfl⟩
      · exact ⟨.insertChild i p, h2, rfl⟩
    obtain ⟨r, hr⟩ := MonotypeBipartite.runOps_inserted h i hop2
    exact ⟨r, hr, hr⟩
  · intro ops s i h hop
    have hop2 : ∃ op ∈ ops, op.targets i := by
      rcases hop with h1 | ⟨p, h2⟩
      · exact ⟨.insertParent i, h1, rfl⟩
      · exact ⟨.insertChild i p, h2, rfl⟩
    obtain ⟨r, hr⟩ := VecRelations.vec_runOps_inserted h i hop2
    exact ⟨r, hr, hr⟩
  · intro ops s i h hop
    have hop2 : ∃ op ∈ ops, op.targets i := by
      rcases hop with h1 | ⟨p, h2⟩
      · exact ⟨.insertParent i, h1, rfl⟩
      · exact ⟨.insertChild i p, h2, rfl⟩
    obtain ⟨r, hr⟩ := RangeRelations.range_runOps_inserted h i hop2
    exact ⟨r, hr, hr⟩

/-- Witness for C9 on concrete single-call runs and an empty lookup. -/
theorem c9_lookup_inserted_id_total_witness :
    (∃ r, (⟨[(0, .ParentOf [])]⟩ : MonotypeBipartite).index 0 = some r ∧
      (⟨[(0, .ParentOf [])]⟩ : MonotypeBipartite).values.get 0 = some r) ∧
    (∃ r, (⟨[(0, .ParentOf [])]⟩ : VecRelations).index 0 = some r ∧
      (⟨[(0, .ParentOf [])]⟩ : VecRelations).values.get 0 = some r) ∧
    (∃ r, (⟨[(0, .ParentOf IdRange.default)]⟩ : RangeRelations).index 0 =
        some r ∧
      (⟨[(0, .ParentOf IdRange.default)]⟩ : RangeRelations).values.get 0 =
        some r) ∧
    MonotypeBipartite.empty.index 7 = none ∧
    VecRelations.empty.index 7 = none ∧
    RangeRelations.empty.index 7 = none :=
  ⟨c9_lookup_inserted_id_total.1 [.insertParent 0] _ 0 (by decide)
      (Or.inl (by decide)),
   c9_lookup_inserted_id_total.2.1 [.insertParent 0] _ 0 (by decide)
      (Or.inl (by decide)),
   c9_lookup_inserted_id_total.2.2.1 [.insertParent 0] _ 0 (by decide)
      (Or.inl (by decide)),
   c9_lookup_inserted_id_total.2.2.2.1 _ 7 (by decide),
   c9_lookup_inserted_id_total.2.2.2.2.1 _ 7 (by decide),
   c9_lookup_inserted_id_total.2.2.2.2.2 _ 7 (by decide)⟩

/-- C1: starting from an empty store, after any sequence of successful
`insert_parent` / `insert_child` calls the stored relations form a depth-one
forest — every id holding `ChildOf(p)` has `p` holding `ParentOf`, and every
id inside a `ParentOf` collection holds the matching `ChildOf` naming that
parent — and along any further successful calls no entry is removed and no
role flips between Parent and Child, on both the `MonotypeBipartite` and
`RangeRelations` backends. -/
theorem c1_depth_one_forest :
    (∀ ops1 s1, MonotypeBipartite.empty.runOps ops1 = some s1 →
      s1.Inv ∧
      ∀ ops2 s2, s1.runOps ops2 = some s2 →
        ∀ i r, s1.values.get i = some r →
          ∃ r2, s2.values.get i = some r2 ∧
            r.isParentTag = r2.isParentTag) ∧
    (∀ ops1 s1, RangeRelations.empty.runOps ops1 = some s1 →
      s1.Inv ∧
      ∀ ops2 s2, s1.runOps ops2 = some s2 →
        ∀ i r, s1.values.get i = some r →
          ∃ r2, s2.values.get i = some r2 ∧
            r.is_parent = r2.is_parent) := by
  constructor
  · intro ops1 s1 h1
    refine ⟨MonotypeBipartite.runOps_inv MonotypeBipartite.empty_inv h1, ?_⟩
    intro ops2 s2 h2 i r hg
    exact MonotypeBipartite.runOps_mono h2 i r hg
  · intro ops1 s1 h1
    refine ⟨RangeRelations.range_runOps_inv RangeRelations.range_empty_inv h1, ?_⟩
    intro ops2 s2 h2 i r hg
    exact RangeRelations.range_runOps_mono h2 i r hg

/-- Witness for C1 at the concrete two-call run inserting parent 0 and
child 1. -/
theorem c1_depth_one_forest_witness :
    MonotypeBipartite.Inv
      ⟨[(1, .ChildOf 0), (0, .ParentOf [1]), (0, .ParentOf [])]⟩ ∧
    ∀ ops2 s2,
      MonotypeBipartite.runOps
          ⟨[(1, .ChildOf 0), (0, .ParentOf [1]), (0, .ParentOf [])]⟩ ops2 =
        some s2 →
      ∀ i r,
        (⟨[(1, .ChildOf 0), (0, .ParentOf [1]), (0, .ParentOf [])]⟩ :
            MonotypeBipartite).values.get i = some r →
        ∃ r2, s2.values.get i = some r2 ∧ r.isParentTag = r2.isParentTag :=
  c1_depth_one_forest.1 [.insertParent 0, .insertChild 1 0] _ (by decide)

/-- A nonempty range appends exactly its stop slot, gaining one slot. -/
theorem IdRange.append_next (a b : Nat) (h : a < b) :
    (⟨a, b⟩ : IdRange).append b = some ⟨a, b + 1⟩ := by
  have he : (⟨a, b⟩ : IdRange).isEmpty = false := by
    simp [IdRange.isEmpty]
    omega
  simp [IdRange.append, he]

/-- C7: on the Compact Range backend, `insert_parent(p)` followed by
`insert_child` for three strictly sequential ids `c`, `c+1`, `c+2` leaves
`store[p] = ParentOf([c, c+3))`, a single contiguous range of length 3; and
a nonempty range's `append` grows the interval by one exactly when the
appended id is the next slot after the interval's end. -/
theorem c7_sequential_children_form_range (s : RangeRelations) (p c : Nat)
    (hp : s.values.get p = none)
    (hc0 : s.values.get c = none)
    (hc1 : s.values.get (c + 1) = none)
    (hc2 : s.values.get (c + 2) = none)
    (hp0 : p ≠ c) (hp1 : p ≠ c + 1) (hp2 : p ≠ c + 2) :
    (∃ s4, s.runOps [.insertParent p, .insertChild c p,
        .insertChild (c + 1) p, .insertChild (c + 2) p] = some s4 ∧
      s4.values.get p = some (.ParentOf ⟨c, c + 3⟩) ∧
      (IdRange.mk c (c + 3)).len = 3) ∧
    (∀ (r r1 : IdRange) (i : Nat), r.isEmpty = false →
      r.append i = some r1 →
      i = r.stop ∧ r1 = ⟨r.start, r.stop + 1⟩ ∧ r1.len = r.len + 1) := by
  constructor
  · have h1 := RangeRelations.range_insert_parent_fresh s p hp
    have g1p : RawComponent.get
        (s.values.insert p (.ParentOf IdRange.default)) p =
        some (.ParentOf IdRange.default) :=
      RawComponent.get_insert_self _ _ _
    have g1c : RawComponent.get
        (s.values.insert p (.ParentOf IdRange.default)) c = none := by
      rw [RawComponent.get_insert_ne _ _ _ _ hp0]
      exact hc0
    have h2 := RangeRelations.range_insert_child_fresh
      ⟨s.values.insert p (.ParentOf IdRange.default)⟩ c p IdRange.default
      ⟨c, c + 1⟩ g1p rfl g1c (Ne.symm hp0)
    have g2p : RawComponent.get
        (((s.values.insert p (.ParentOf IdRange.default)).insert p
          (.ParentOf ⟨c, c + 1⟩)).insert c (.ChildOf p)) p =
        some (.ParentOf ⟨c, c + 1⟩) := by
      rw [RawComponent.get_insert_ne _ _ _ _ (Ne.symm hp0),
        RawComponent.get_insert_self]
    have g2c : RawComponent.get
        (((s.values.insert p (.ParentOf IdRange.default)).insert p
          (.ParentOf ⟨c, c + 1⟩)).insert c (.ChildOf p)) (c + 1) = none := by
      rw [RawComponent.get_insert_ne _ _ _ _ (show c ≠ c + 1 by omega),
        RawComponent.get_insert_ne _ _ _ _ hp1,
        RawComponent.get_insert_ne _ _ _ _ hp1]
      exact hc1
    have h3 := RangeRelations.range_insert_child_fresh
      ⟨((s.values.insert p (.ParentOf IdRange.default)).insert p
        (.ParentOf ⟨c, c + 1⟩)).insert c (.ChildOf p)⟩ (c + 1) p
      ⟨c, c + 1⟩ ⟨c, c + 2⟩ g2p (IdRange.append_next c (c + 1) (by omega))
      g2c (Ne.symm hp1)
    have g3p : RawComponent.get
        (((((s.values.insert p (.ParentOf IdRange.default)).insert p
          (.ParentOf ⟨c, c + 1⟩)).insert c (.ChildOf p)).insert p
          (.ParentOf ⟨c, c + 2⟩)).insert (c + 1) (.ChildOf p)) p =
        some (.ParentOf ⟨c, c + 2⟩) := by
      rw [RawComponent.get_insert_ne _ _ _ _ (Ne.symm hp1),
        RawComponent.get_insert_self]
    have g3c : RawComponent.get
        (((((s.values.insert p (.ParentOf IdRange.default)).insert p
          (.ParentOf ⟨c, c + 1⟩)).insert c (.ChildOf p)).insert p
          (.ParentOf ⟨c, c + 2⟩)).insert (c + 1) (.ChildOf p)) (c + 2) =
        none := by
      rw [RawComponent.get_insert_ne _ _ _ _ (show c + 1 ≠ c + 2 by omega),
        RawComponent.get_insert_ne _ _ _ _ hp2,
        RawComponent.get_insert_ne _ _ _ _ (show c ≠ c + 2 by omega),
        RawComponent.get_insert_ne _ _ _ _ hp2,
        RawComponent.get_insert_ne _ _ _ _ hp2]
      exact hc2
    have h4 := RangeRelations.range_insert_child_fresh
      ⟨((((s.values.insert p (.ParentOf IdRange.default)).insert p
        (.ParentOf ⟨c, c + 1⟩)).insert c (.ChildOf p)).insert p
        (.ParentOf ⟨c, c + 2⟩)).insert (c + 1) (.ChildOf p)⟩ (c + 2) p
      ⟨c, c + 2⟩ ⟨c, c + 3⟩ g3p (IdRange.append_next c (c + 2) (by omega))
      g3c (Ne.symm hp2)
    refine ⟨⟨((((((s.values.insert p (.ParentOf IdRange.default)).insert p
        (.ParentOf ⟨c, c + 1⟩)).insert c (.ChildOf p)).insert p
        (.ParentOf ⟨c, c + 2⟩)).insert (c + 1) (.ChildOf p)).insert p
        (.ParentOf ⟨c, c + 3⟩)).insert (c + 2) (.ChildOf p)⟩, ?_, ?_, ?_⟩
    · simp only [RangeRelations.runOps, RangeRelations.applyOp, h1, h2, h3, h4]
    · show RawComponent.get _ p = _
      rw [RawComponent.get_insert_ne _ _ _ _ (Ne.symm hp2),
        RawComponent.get_insert_self]
    · simp [IdRange.len]
  · intro r r1 i hne ha
    simp only [IdRange.isEmpty, decide_eq_false_iff_not] at hne
    have hnot : ¬(r.isEmpty = true) := by
      simp [IdRange.isEmpty]
      omega
    unfold IdRange.append at ha
    rw [if_neg hnot] at ha
    by_cases hi : i = r.stop
    · rw [if_pos hi] at ha
      cases ha
      refine ⟨hi, rfl, ?_⟩
      simp only [IdRange.len]
      omega
    · rw [if_neg hi] at ha
      cases ha

/-- Witness for C7 on the empty store with parent 0 and children 1, 2, 3. -/
theorem c7_sequential_children_form_range_witness :
    (∃ s4, RangeRelations.empty.runOps [.insertParent 0, .insertChild 1 0,
        .insertChild 2 0, .insertChild 3 0] = some s4 ∧
      s4.values.get 0 = some (.ParentOf ⟨1, 4⟩) ∧
      (IdRange.mk 1 4).len = 3) ∧
    (∀ (r r1 : IdRange) (i : Nat), r.isEmpty = false →
      r.append i = some r1 →
      i = r.stop ∧ r1 = ⟨r.start, r.stop + 1⟩ ∧ r1.len = r.len + 1) :=
  c7_sequential_children_form_range .empty 0 1 (by decide) (by decide)
    (by decide) (by decide) (by decide) (by decide) (by decide)
